import Mathlib

/-!
Verification development for the audio transcoding pipeline in `src/tmp30.c`
(an FFmpeg `transcode_aac`-style program).  The source bridges a pull-based
decoder, a 1:1 sample converter, an elastic FIFO of samples
(`AVAudioFifo`), and a fixed-frame-size encoder, driven by the nested loop
in `main` (lines 757-805).

The embedding below models:
 * the sample FIFO as a `List` of samples (`av_audio_fifo_size`,
   `av_audio_fifo_read`, `add_samples_to_fifo`);
 * `encode_audio_frame` at the level of the global presentation counter
   `pts` (lines 616-620): a non-null frame is stamped with the current
   counter, then the counter advances by the frame's sample count;
 * `decode_audio_frame` (lines 354-407) over abstract outcomes of
   `av_read_frame`, `avcodec_send_packet` and `avcodec_receive_frame`;
 * `read_decode_convert_and_store` (lines 506-556) both per call
   (`read_decode_convert_and_store_env`) and against a decoder script
   (`read_decode_convert_and_store`), where the script lists the outcome of
   each decode call; exhaustion of the script is end-of-stream;
 * `load_encode_and_write` (lines 672-703) including its short-read
   fatal branch;
 * the outer loop of `main` (lines 757-805) as a small-step state machine
   `driverStep` over `Driver` states with phases FILLING / DRAINING /
   FLUSHING / DONE / FAILED;
 * `open_input_file` (lines 62-135) and `open_output_file` (lines 147-241)
   over abstract environments recording the results of the library calls
   they make.

All machine integers that matter here are sample counts (non-negative,
nowhere near overflow in the source's `int`/`int64_t`), so they are
modelled as `Nat`; libav error codes are modelled as `Int`.
-/

/-- `AVERROR_EOF = FFERRTAG('E','O','F',' ')`. -/
def AVERROR_EOF : Int := -541478725

/-- `AVERROR_EXIT = FFERRTAG('E','X','I','T')`. -/
def AVERROR_EXIT : Int := -1414092869

/-- `AVERROR(ENOMEM)` on Linux. -/
def AVERROR_ENOMEM : Int := -12

/-! ### Elastic sample buffer (`AVAudioFifo`) -/

/-- `av_audio_fifo_size`: the number of samples currently in the FIFO. -/
def av_audio_fifo_size {α : Type} (fifo : List α) : Nat :=
  fifo.length

/-- `av_audio_fifo_read fifo n`: reads `min n fifo.length` samples from the
head of the FIFO; returns the samples read and the remaining FIFO state.
(The C function returns the count actually read, which is the length of the
first component; fewer than `n` only when the FIFO holds fewer than `n`.) -/
def av_audio_fifo_read {α : Type} (fifo : List α) (n : Nat) : List α × List α :=
  (fifo.take n, fifo.drop n)

/-- `add_samples_to_fifo` (lines 471-488): grow the FIFO to hold the old and
the new samples, then append the new samples at the tail.  The realloc
cannot shrink below the current level, so on the list model an append
suffices. -/
def add_samples_to_fifo {α : Type} (fifo : List α) (converted_input_samples : List α) : List α :=
  fifo ++ converted_input_samples

/-- One operation on the elastic sample buffer, for stating properties over
arbitrary interleavings of appends and consumes. -/
inductive FifoOp (α : Type) where
  | append (xs : List α)
  | consume (n : Nat)
deriving DecidableEq

/-- Apply one buffer operation: appends go through `add_samples_to_fifo`,
consumes through `av_audio_fifo_read`. -/
def applyFifoOp {α : Type} (fifo : List α) : FifoOp α → List α
  | FifoOp.append xs => add_samples_to_fifo fifo xs
  | FifoOp.consume n => (av_audio_fifo_read fifo n).2

/-- Run a sequence of buffer operations left to right. -/
def runFifoOps {α : Type} (fifo : List α) : List (FifoOp α) → List α
  | [] => fifo
  | op :: rest => runFifoOps (applyFifoOp fifo op) rest

/-- An operation sequence is valid when every consume asks for at most the
current level (the discipline the Frame Drain obeys). -/
def validFifoOps {α : Type} (fifo : List α) : List (FifoOp α) → Bool
  | [] => true
  | FifoOp.append xs :: rest => validFifoOps (applyFifoOp fifo (FifoOp.append xs)) rest
  | FifoOp.consume n :: rest =>
      decide (n ≤ fifo.length) && validFifoOps (applyFifoOp fifo (FifoOp.consume n)) rest

/-- Total number of samples appended by an operation sequence. -/
def appendTotal {α : Type} : List (FifoOp α) → Nat
  | [] => 0
  | FifoOp.append xs :: rest => xs.length + appendTotal rest
  | FifoOp.consume _ :: rest => appendTotal rest

/-- Total number of samples consumed by an operation sequence. -/
def consumeTotal {α : Type} : List (FifoOp α) → Nat
  | [] => 0
  | FifoOp.append _ :: rest => consumeTotal rest
  | FifoOp.consume n :: rest => n + consumeTotal rest

/-! ### Encoder side: `encode_audio_frame` and the global `pts` counter -/

/-- `encode_audio_frame` (lines 606-662), restricted to its effect on the
global presentation counter `pts` (lines 52-53 and 616-620): a non-null
frame is assigned the current counter value as its timestamp and the
counter advances by the frame's sample count; a null (flush) frame leaves
the counter untouched and gets no timestamp.  Returns
`(new counter, assigned timestamp)`. -/
def encode_audio_frame {α : Type} (pts : Nat) (frame : Option (List α)) : Nat × Option Nat :=
  match frame with
  | some f => (pts + f.length, some pts)
  | none => (pts, none)

/-- Run a sequence of `encode_audio_frame` calls threading the counter,
collecting the timestamps assigned to the non-null frames in order.  -/
def runEncodes {α : Type} (pts : Nat) : List (Option (List α)) → Nat × List Nat
  | [] => (pts, [])
  | f :: rest =>
      let r := encode_audio_frame pts f
      let s := runEncodes r.1 rest
      (s.1, (match r.2 with | some t => [t] | none => []) ++ s.2)

/-- `runningTotals acc l`: the value of an accumulator before each element
of `l` is added, starting from `acc` (so the timestamps the presentation
counter assigns to frames of sizes `l`). -/
def runningTotals (acc : Nat) : List Nat → List Nat
  | [] => []
  | s :: rest => acc :: runningTotals (acc + s) rest

/-! ### Decoder side: `decode_audio_frame` -/

/-- Outcome of one `avcodec_receive_frame` call: a decoded frame,
`AVERROR(EAGAIN)` (needs more input), `AVERROR_EOF`, or another
(genuine) error code. -/
inductive RecvFrame (α : Type) where
  | ok (d : List α)
  | eagain
  | eof
  | err (e : Int)
deriving DecidableEq

/-- Result of `decode_audio_frame`: its return code and the two out
parameters `data_present` and `finished`, plus the decoded samples when
present. -/
structure DecodeOut (α : Type) where
  ret : Int
  data_present : Bool
  finished : Bool
  data : Option (List α)
deriving DecidableEq

/-- `decode_audio_frame` (lines 354-407) as a function of the outcomes of
the three library calls it makes: `readRes` is the `av_read_frame` return
code, `sendRes` the `avcodec_send_packet` return code, and `recv` the
`avcodec_receive_frame` outcome.  `av_read_frame` returning `AVERROR_EOF`
sets `finished` and falls through to flush the decoder; any other negative
`readRes` is returned.  The receive outcome is then mapped exactly as in
lines 384-407. -/
def decode_audio_frame {α : Type} (readRes sendRes : Int) (recv : RecvFrame α) : DecodeOut α :=
  if readRes < 0 ∧ readRes ≠ AVERROR_EOF then
    ⟨readRes, false, false, none⟩
  else
    let fin0 := decide (readRes = AVERROR_EOF)
    if sendRes < 0 then ⟨sendRes, false, fin0, none⟩
    else
      match recv with
      | RecvFrame.eagain => ⟨0, false, fin0, none⟩
      | RecvFrame.eof => ⟨0, false, true, none⟩
      | RecvFrame.err e => ⟨e, false, fin0, none⟩
      | RecvFrame.ok d => ⟨0, true, fin0, some d⟩

/-- Result of one `read_decode_convert_and_store` call: its return code,
the FIFO afterwards, and the `finished` out parameter. -/
structure PumpOut (α : Type) where
  ret : Int
  fifo : List α
  finished : Bool
deriving DecidableEq

/-- `read_decode_convert_and_store` (lines 506-556) for a single call, as a
function of the decode call's environment.  A decode failure makes it
return its initial `ret = AVERROR_EXIT`; if `finished` is set it returns 0
at once — before looking at `data_present`, so a frame delivered in the
same call is discarded; otherwise present data is converted 1:1 and
appended to the FIFO. -/
def read_decode_convert_and_store_env {α : Type} (fifo : List α) (readRes sendRes : Int)
    (recv : RecvFrame α) : PumpOut α :=
  let r := decode_audio_frame readRes sendRes recv
  if r.ret ≠ 0 then ⟨AVERROR_EXIT, fifo, r.finished⟩
  else if r.finished = true then ⟨0, fifo, r.finished⟩
  else
    match r.data, r.data_present with
    | some d, true => ⟨0, add_samples_to_fifo fifo d, r.finished⟩
    | _, _ => ⟨0, fifo, r.finished⟩

/-! ### The pipeline driver (`main`, lines 757-805) -/

/-- One decode call's outcome as the pipeline sees it, for scripted runs:
`frame d` — the decoder delivered samples `d` (read succeeded);
`needMore` — the decoder needs more input, nothing delivered;
`lateFrame d` — `av_read_frame` hit end-of-stream and the *same*
`decode_audio_frame` call still received delayed samples `d` from the
drained decoder (`data_present` and `finished` both set).
A script models the successive outcomes of the decode calls; when the
script is exhausted every further call reports end-of-stream with no
data. -/
inductive PumpEvent (α : Type) where
  | frame (d : List α)
  | needMore
  | lateFrame (d : List α)
deriving DecidableEq

/-- `read_decode_convert_and_store` against a decoder script: returns the
new FIFO, the rest of the script, the `finished` flag, and the number of
samples the decoder produced in this call (for `lateFrame` the samples are
produced but, per lines 521-527, dropped before reaching the FIFO). -/
def read_decode_convert_and_store {α : Type} (fifo : List α) (script : List (PumpEvent α)) :
    List α × List (PumpEvent α) × Bool × Nat :=
  match script with
  | [] => (fifo, [], true, 0)
  | PumpEvent.frame d :: rest => (add_samples_to_fifo fifo d, rest, false, d.length)
  | PumpEvent.needMore :: rest => (fifo, rest, false, 0)
  | PumpEvent.lateFrame d :: rest => (fifo, rest, true, d.length)

/-- `load_encode_and_write` (lines 672-703): take
`frame_size = min (fifo level) (encoder frame size)` samples from the FIFO
(line 679), fail fatally if the FIFO read comes up short (lines 689-693),
otherwise stamp and encode the frame.  Returns the new FIFO, the new
presentation counter, and the frame handed to the encoder. -/
def load_encode_and_write {α : Type} (E : Nat) (fifo : List α) (pts : Nat) :
    Except Int (List α × Nat × List α) :=
  let frame_size := min (av_audio_fifo_size fifo) E
  let r := av_audio_fifo_read fifo frame_size
  if r.1.length < frame_size then Except.error AVERROR_EXIT
  else Except.ok (r.2, (encode_audio_frame pts (some r.1)).1, r.1)

/-- Phases of the pipeline driver: the states of the outer loop of `main`.
`failed` models `goto cleanup` on a fatal error. -/
inductive Phase where
  | filling
  | draining
  | flushing
  | done
  | failed
deriving DecidableEq

/-- State of the pipeline driver: current phase, FIFO contents, remaining
decoder script, the `finished` flag, the frames handed to the encoder so
far, the global presentation counter, the total samples the decoder has
produced (ghost bookkeeping), and the number of packets the encoder will
still deliver while flushing. -/
structure Driver (α : Type) where
  phase : Phase
  fifo : List α
  script : List (PumpEvent α)
  finished : Bool
  encoded : List (List α)
  pts : Nat
  decoded : Nat
  pending : Nat
deriving DecidableEq

/-- Initial driver state: empty FIFO (`init_fifo` allocates space for one
sample but level 0), `pts = 0`, inner fill loop about to run. -/
def initDriver {α : Type} (script : List (PumpEvent α)) (pending : Nat) : Driver α :=
  ⟨Phase.filling, [], script, false, [], 0, 0, pending⟩

/-- One step of the outer loop of `main` (lines 757-805).
`filling`: while the FIFO holds fewer than `E` samples, run one
`read_decode_convert_and_store`; leave to `draining` when full enough or
when the pump reports `finished` (each pump call overwrites `finished`).
`draining`: while the FIFO holds at least `E` samples, or `finished` is
set and the FIFO is nonempty (line 782), run one `load_encode_and_write`;
otherwise flush if `finished`, else start the next outer iteration
(re-initialising `finished` to 0, line 760).
`flushing`: `encode_audio_frame(NULL)` until a cycle yields no packet
(lines 795-803), modelled by the countdown `pending`.
`done` is reached after the flush cycle that yields no packet; `failed`
absorbs fatal errors. -/
def driverStep {α : Type} (E : Nat) (d : Driver α) : Driver α :=
  match d.phase with
  | Phase.filling =>
      if av_audio_fifo_size d.fifo < E then
        match read_decode_convert_and_store d.fifo d.script with
        | (fifo', script', fin, dec) =>
            { d with fifo := fifo', script := script', finished := fin,
                     decoded := d.decoded + dec,
                     phase := if fin = true then Phase.draining else Phase.filling }
      else { d with phase := Phase.draining }
  | Phase.draining =>
      if E ≤ av_audio_fifo_size d.fifo ∨ (d.finished = true ∧ 0 < av_audio_fifo_size d.fifo) then
        match load_encode_and_write E d.fifo d.pts with
        | Except.ok (fifo', pts', frame) =>
            { d with fifo := fifo', pts := pts', encoded := d.encoded ++ [frame] }
        | Except.error _ => { d with phase := Phase.failed }
      else if d.finished = true then { d with phase := Phase.flushing }
      else { d with phase := Phase.filling, finished := false }
  | Phase.flushing =>
      if 0 < d.pending then { d with pending := d.pending - 1 }
      else { d with phase := Phase.done }
  | Phase.done => d
  | Phase.failed => d

/-- Total number of samples in the frames handed to the encoder. -/
def encTotal {α : Type} : List (List α) → Nat
  | [] => 0
  | f :: rest => f.length + encTotal rest

/-- Total number of samples the decoder delivers over a script (regular
and late frames alike). -/
def frameTotal {α : Type} : List (PumpEvent α) → Nat
  | [] => 0
  | PumpEvent.frame d :: rest => d.length + frameTotal rest
  | PumpEvent.needMore :: rest => frameTotal rest
  | PumpEvent.lateFrame d :: rest => d.length + frameTotal rest

/-- Whether a script contains a late frame (delayed samples delivered in
the same decode call that signals end-of-stream). -/
def hasLate {α : Type} : List (PumpEvent α) → Bool
  | [] => false
  | PumpEvent.lateFrame _ :: _ => true
  | _ :: rest => hasLate rest

/-- Weight of one script event, for the termination measure. -/
def eventWeight {α : Type} : PumpEvent α → Nat
  | PumpEvent.frame d => d.length + 1
  | PumpEvent.needMore => 1
  | PumpEvent.lateFrame _ => 1

/-- Weight of a script, for the termination measure. -/
def scriptWeight {α : Type} : List (PumpEvent α) → Nat
  | [] => 0
  | e :: rest => eventWeight e + scriptWeight rest

/-- Phase contribution to the termination measure. -/
def phaseConst {α : Type} (E : Nat) (d : Driver α) : Nat :=
  match d.phase with
  | Phase.filling => if d.fifo.length < E then 3 else 5
  | Phase.draining => if d.finished = true then 2 else 4
  | Phase.flushing => 1
  | Phase.done => 0
  | Phase.failed => 0

/-- Termination measure for the pipeline driver: strictly decreases on
every step from a non-final state when `0 < E`. -/
def phi {α : Type} (E : Nat) (d : Driver α) : Nat :=
  3 * scriptWeight d.script + 2 * d.fifo.length + d.pending + phaseConst E d

/-- Conservation invariant tying the decoder's output to the FIFO level and
the samples handed to the encoder, for scripts with no late frames; also
records the structural facts the proofs need about `finished`, the final
phases, and unreachability of `failed`. -/
def ConsInv {α : Type} (d : Driver α) : Prop :=
  d.decoded = encTotal d.encoded + d.fifo.length ∧
  hasLate d.script = false ∧
  (d.finished = true → d.script = []) ∧
  ((d.phase = Phase.flushing ∨ d.phase = Phase.done) → (d.fifo = [] ∧ d.finished = true)) ∧
  d.phase ≠ Phase.failed

/-! ### The FLUSHING loop over an arbitrary encoder model -/

/-- The `FLUSHING` loop of `main` (lines 795-803) over an arbitrary encoder
model `recv`, where `recv i` tells whether the `i`-th
`encode_audio_frame(NULL)` cycle yields a packet.  `flushLoopCalls recv i
fuel` returns the total number of flush calls made (counting from call
`i`) if the loop exits within `fuel` calls, and `none` otherwise. -/
def flushLoopCalls (recv : Nat → Bool) : Nat → Nat → Option Nat
  | _, 0 => none
  | i, fuel + 1 => if recv i = true then flushLoopCalls recv (i + 1) fuel else some (i + 1)

/-- `main` writes the container trailer (line 809) exactly when the flush
loop has exited. -/
def trailer_written_after_flush (recv : Nat → Bool) (fuel : Nat) : Bool :=
  (flushLoopCalls recv 0 fuel).isSome

/-! ### Startup: `open_input_file`, `open_output_file`, the resampler assertion -/

/-- Media type of one stream of the input file. -/
inductive MediaKind where
  | audio
  | video
  | subtitle
  | other
deriving DecidableEq

/-- Environment of one `open_input_file` call: the results of the library
calls it makes, and the streams the demuxer exposes. -/
structure InOpenEnv where
  openRes : Int
  findRes : Int
  streams : List MediaKind
  decoderFound : Bool
  ctxAllocOk : Bool
  paramsRes : Int
  codecOpenRes : Int
deriving DecidableEq

/-- `open_input_file` (lines 62-135): note that line 87 checks the *total*
stream count `nb_streams != 1`, not the number of audio streams. -/
def open_input_file (env : InOpenEnv) : Int :=
  if env.openRes < 0 then env.openRes
  else if env.findRes < 0 then env.findRes
  else if env.streams.length ≠ 1 then AVERROR_EXIT
  else if env.decoderFound = false then AVERROR_EXIT
  else if env.ctxAllocOk = false then AVERROR_ENOMEM
  else if env.paramsRes < 0 then env.paramsRes
  else if env.codecOpenRes < 0 then env.codecOpenRes
  else 0

/-- Number of audio streams the input exposes. -/
def audioStreamCount (streams : List MediaKind) : Nat :=
  (streams.filter (fun k => k = MediaKind.audio)).length

/-- Outcome of `main`'s startup section (lines 735-736): either it jumps to
cleanup before the pipeline starts, returning the initial
`ret = AVERROR_EXIT` (line 727), or the pipeline starts. -/
inductive StartupResult where
  | failedBeforePipeline (code : Int)
  | pipelineStarted
deriving DecidableEq

/-- The startup control flow of `main` around `open_input_file`: a nonzero
return jumps to cleanup with `ret` still `AVERROR_EXIT`. -/
def main_startup (env : InOpenEnv) : StartupResult :=
  if open_input_file env ≠ 0 then StartupResult.failedBeforePipeline AVERROR_EXIT
  else StartupResult.pipelineStarted

/-- The slice of the codec context that the resampler assertion reads. -/
structure CodecPar where
  sample_rate : Int
deriving DecidableEq

/-- Environment of one `open_output_file` call: whether each of the library
calls it makes succeeds. -/
structure OutOpenEnv where
  avioOk : Bool
  allocOk : Bool
  fmtFound : Bool
  urlOk : Bool
  encoderFound : Bool
  streamOk : Bool
  ctxAllocOk : Bool
  codecOpenOk : Bool
  paramsOk : Bool
deriving DecidableEq

/-- `open_output_file` (lines 147-241), restricted to the parameters the
resampler assertion reads: on success the encoder context's sample rate is
set to the input's sample rate (line 205, "The input file's sample rate is
used to avoid a sample rate conversion"); on any failure no context is
returned. -/
def open_output_file (inp : CodecPar) (env : OutOpenEnv) : Option CodecPar :=
  if env.avioOk = true ∧ env.allocOk = true ∧ env.fmtFound = true ∧ env.urlOk = true ∧
     env.encoderFound = true ∧ env.streamOk = true ∧ env.ctxAllocOk = true ∧
     env.codecOpenOk = true ∧ env.paramsOk = true
  then some { sample_rate := inp.sample_rate }
  else none

/-- The `av_assert0(outccx->sample_rate == inpccx->sample_rate)` check in
`init_resampler` (line 299): `true` when the assertion passes, `false`
when it would abort. -/
def init_resampler_assertOk (inp out : CodecPar) : Bool :=
  out.sample_rate == inp.sample_rate

/-! ### Basic lemmas -/

/-- `load_encode_and_write` always succeeds and takes exactly
`min (level) E` samples off the head of the FIFO. -/
theorem load_encode_and_write_eq {α : Type} (E : Nat) (fifo : List α) (pts : Nat) :
    load_encode_and_write E fifo pts =
      Except.ok (fifo.drop (min fifo.length E), pts + min fifo.length E,
        fifo.take (min fifo.length E)) := by
  have h : min (min fifo.length E) fifo.length = min fifo.length E := by omega
  simp [load_encode_and_write, av_audio_fifo_read, av_audio_fifo_size, encode_audio_frame,
    List.length_take, h]

/-- Flush calls leave the presentation counter untouched and assign no
timestamps. -/
theorem runEncodes_replicate_none {α : Type} (pts k : Nat) :
    runEncodes pts (List.replicate k (none : Option (List α))) = (pts, []) := by
  induction k with
  | zero => simp [runEncodes]
  | succ k ih => simp [List.replicate_succ, runEncodes, encode_audio_frame, ih]

/-- Running the encoder over non-null frames: the counter ends at the start
value plus the total sample count, and the assigned timestamps are the
running totals starting from the start value. -/
theorem runEncodes_map_some {α : Type} (frames : List (List α)) (p : Nat) :
    runEncodes p (frames.map some) =
      (p + (frames.map List.length).sum, runningTotals p (frames.map List.length)) := by
  induction frames generalizing p with
  | nil => simp [runEncodes, runningTotals]
  | cons f rest ih =>
    simp only [List.map_cons, runEncodes, encode_audio_frame, List.sum_cons, runningTotals]
    rw [ih (p + f.length)]
    simp [Nat.add_assoc]

/-- Running totals are non-decreasing. -/
theorem chain'_runningTotals : ∀ (l : List Nat) (acc : Nat),
    List.Chain' (fun a b => a ≤ b) (runningTotals acc l) := by
  intro l
  induction l with
  | nil => intro acc; simp [runningTotals]
  | cons s rest ih =>
    intro acc
    have h := ih (acc + s)
    cases rest with
    | nil => simp [runningTotals]
    | cons t r =>
      simp only [runningTotals] at h ⊢
      rw [List.chain'_cons]
      exact ⟨by omega, h⟩

/-! ### Claim theorems: buffer, counter, drain -/

/-- Claim C2: for every interleaving of buffer appends and consumes in
which each consume asks for at most the current level, the level after an
append of `count` samples is `level_before + count`, the level after a
consume of `count` samples is `level_before - count`, and the level is
never negative; consequently over the whole interleaving the final level is
the initial level plus all appends minus all consumes. -/
theorem fifo_level_dynamics {α : Type} (f : List α) (ops : List (FifoOp α))
    (h : validFifoOps f ops = true) :
    ((runFifoOps f ops).length : Int) =
        (f.length : Int) + (appendTotal ops : Int) - (consumeTotal ops : Int) ∧
    (∀ (g : List α) (xs : List α),
        (applyFifoOp g (FifoOp.append xs)).length = g.length + xs.length) ∧
    (∀ (g : List α) (n : Nat), n ≤ g.length →
        ((applyFifoOp g (FifoOp.consume n)).length : Int) = (g.length : Int) - (n : Int)) ∧
    (0 : Int) ≤ ((runFifoOps f ops).length : Int) := by
  refine ⟨?_, ?_, ?_, Int.natCast_nonneg _⟩
  · induction ops generalizing f with
    | nil => simp [runFifoOps, appendTotal, consumeTotal]
    | cons op rest ih =>
      cases op with
      | append xs =>
        have h' : validFifoOps (applyFifoOp f (FifoOp.append xs)) rest = true := by
          simpa [validFifoOps] using h
        have hr := ih _ h'
        simp only [runFifoOps, appendTotal, consumeTotal, applyFifoOp,
          add_samples_to_fifo, List.length_append] at hr ⊢
        omega
      | consume n =>
        have hv : n ≤ f.length ∧ validFifoOps (applyFifoOp f (FifoOp.consume n)) rest = true := by
          simpa [validFifoOps] using h
        have hr := ih _ hv.2
        simp only [runFifoOps, appendTotal, consumeTotal, applyFifoOp,
          av_audio_fifo_read, List.length_drop] at hr ⊢
        have hn := hv.1
        omega
  · intro g xs
    simp [applyFifoOp, add_samples_to_fifo]
  · intro g n hn
    simp only [applyFifoOp, av_audio_fifo_read, List.length_drop]
    omega

/-- Witness for C2 at a concrete interleaving. -/
theorem fifo_level_dynamics_witness :
    validFifoOps ([0] : List Nat) [FifoOp.append [1, 2], FifoOp.consume 3] = true ∧
    (((runFifoOps ([0] : List Nat) [FifoOp.append [1, 2], FifoOp.consume 3]).length : Int) =
        ((([0] : List Nat)).length : Int) +
          ((appendTotal [FifoOp.append ([1, 2] : List Nat), FifoOp.consume 3] : Nat) : Int) -
          ((consumeTotal [FifoOp.append ([1, 2] : List Nat), FifoOp.consume 3] : Nat) : Int) ∧
      (∀ (g : List Nat) (xs : List Nat),
          (applyFifoOp g (FifoOp.append xs)).length = g.length + xs.length) ∧
      (∀ (g : List Nat) (n : Nat), n ≤ g.length →
          ((applyFifoOp g (FifoOp.consume n)).length : Int) = (g.length : Int) - (n : Int)) ∧
      (0 : Int) ≤
        ((runFifoOps ([0] : List Nat) [FifoOp.append [1, 2], FifoOp.consume 3]).length : Int)) :=
  ⟨by decide, fifo_level_dynamics [0] [FifoOp.append [1, 2], FifoOp.consume 3] (by decide)⟩

/-- Claim C3: the global presentation counter starts at 0 and, after frames
of sample counts `s_1..s_k` have been pushed to the encoder, equals
`s_1 + ... + s_k`; the timestamps assigned to successive frames are the
running totals (each frame is stamped with the counter value *before* the
counter advances by that frame's sample count), hence non-decreasing. -/
theorem pts_counter_correct {α : Type} (frames : List (List α)) :
    (runEncodes 0 (frames.map some)).1 = (frames.map List.length).sum ∧
    (runEncodes 0 (frames.map some)).2 = runningTotals 0 (frames.map List.length) ∧
    List.Chain' (fun a b => a ≤ b) (runEncodes 0 (frames.map some)).2 := by
  have h := runEncodes_map_some frames 0
  refine ⟨?_, ?_, ?_⟩
  · rw [h]; simp
  · rw [h]
  · rw [h]; exact chain'_runningTotals _ 0

/-- Claim C5: every frame drain computes its frame size as
`min (buffer level) (encoder frame size)` and consumes exactly that many
samples from the head of the buffer; the short-read fatal-error branch of
`load_encode_and_write` is unreachable. -/
theorem frame_drain_exact {α : Type} (E : Nat) (fifo : List α) (pts : Nat) :
    load_encode_and_write E fifo pts =
      Except.ok (fifo.drop (min fifo.length E), pts + min fifo.length E,
        fifo.take (min fifo.length E)) ∧
    (fifo.take (min fifo.length E)).length = min fifo.length E ∧
    (fifo.drop (min fifo.length E)).length = fifo.length - min fifo.length E ∧
    (∀ e : Int, load_encode_and_write E fifo pts ≠ Except.error e) := by
  refine ⟨load_encode_and_write_eq E fifo pts, ?_, ?_, ?_⟩
  · simp [List.length_take]
  · simp [List.length_drop]
  · intro e
    rw [load_encode_and_write_eq E fifo pts]
    simp

/-- Claim C10: pushing a null (flush) frame to the encoder leaves the
global presentation counter unchanged and assigns no timestamp; any number
of flush cycles preserves the counter's value. -/
theorem null_frame_preserves_pts {α : Type} (pts : Nat) (k : Nat) :
    (encode_audio_frame pts (none : Option (List α))).1 = pts ∧
    (encode_audio_frame pts (none : Option (List α))).2 = none ∧
    (runEncodes pts (List.replicate k (none : Option (List α)))).1 = pts ∧
    (runEncodes pts (List.replicate k (none : Option (List α)))).2 = [] := by
  refine ⟨rfl, rfl, ?_, ?_⟩
  · rw [runEncodes_replicate_none]
  · rw [runEncodes_replicate_none]

/-! ### Claim theorems: decode result mapping, flush termination, startup -/

/-- Claim C6: for every decode step, decoder end-of-stream yields a
successful return (code 0) with `finished` set; `AVERROR(EAGAIN)` (needs
more input) yields a successful return with no data present and the FIFO
unchanged; and a nonzero return arises only from a genuine read, send or
receive failure — end-of-stream is never surfaced as an error. -/
theorem decode_eos_not_error {α : Type} (readRes sendRes : Int) (fifo : List α)
    (hr : 0 ≤ readRes ∨ readRes = AVERROR_EOF) (hs : 0 ≤ sendRes) :
    decode_audio_frame readRes sendRes (RecvFrame.eof : RecvFrame α) =
      ⟨0, false, true, none⟩ ∧
    (decode_audio_frame readRes sendRes (RecvFrame.eagain : RecvFrame α)).ret = 0 ∧
    (decode_audio_frame readRes sendRes (RecvFrame.eagain : RecvFrame α)).data_present = false ∧
    (read_decode_convert_and_store_env fifo readRes sendRes
        (RecvFrame.eagain : RecvFrame α)).fifo = fifo ∧
    (read_decode_convert_and_store_env fifo readRes sendRes
        (RecvFrame.eagain : RecvFrame α)).ret = 0 ∧
    (∀ (rr sr : Int) (r : RecvFrame α), (decode_audio_frame rr sr r).ret ≠ 0 →
        (rr < 0 ∧ rr ≠ AVERROR_EOF) ∨ sr < 0 ∨ ∃ e : Int, r = RecvFrame.err e) := by
  have h1 : ¬ (readRes < 0 ∧ readRes ≠ AVERROR_EOF) := by
    rcases hr with h | h
    · intro hc; omega
    · intro hc; exact hc.2 h
  have h2 : ¬ sendRes < 0 := by omega
  refine ⟨?_, ?_, ?_, ?_, ?_, ?_⟩
  · simp [decode_audio_frame, h1, h2]
  · simp [decode_audio_frame, h1, h2]
  · simp [decode_audio_frame, h1, h2]
  · by_cases he : readRes = AVERROR_EOF
    · simp [read_decode_convert_and_store_env, decode_audio_frame, h1, h2, he]
    · have hr0 : ¬ readRes < 0 := by
        rcases hr with h | h
        · omega
        · exact absurd h he
      simp [read_decode_convert_and_store_env, decode_audio_frame, h1, h2, he, hr0]
  · by_cases he : readRes = AVERROR_EOF
    · simp [read_decode_convert_and_store_env, decode_audio_frame, h1, h2, he]
    · have hr0 : ¬ readRes < 0 := by
        rcases hr with h | h
        · omega
        · exact absurd h he
      simp [read_decode_convert_and_store_env, decode_audio_frame, h1, h2, he, hr0]
  · intro rr sr r hret
    unfold decode_audio_frame at hret
    split_ifs at hret with hA hB
    · exact Or.inl hA
    · exact Or.inr (Or.inl hB)
    · cases r with
      | ok d => simp at hret
      | eagain => simp at hret
      | eof => simp at hret
      | err e => exact Or.inr (Or.inr ⟨e, rfl⟩)

/-- Witness for C6 at a concrete decode environment. -/
theorem decode_eos_not_error_witness :
    ((0 : Int) ≤ 0 ∨ (0 : Int) = AVERROR_EOF) ∧ (0 : Int) ≤ 0 ∧
    (decode_audio_frame 0 0 (RecvFrame.eof : RecvFrame Nat) = ⟨0, false, true, none⟩ ∧
      (decode_audio_frame 0 0 (RecvFrame.eagain : RecvFrame Nat)).ret = 0 ∧
      (decode_audio_frame 0 0 (RecvFrame.eagain : RecvFrame Nat)).data_present = false ∧
      (read_decode_convert_and_store_env ([7] : List Nat) 0 0
          (RecvFrame.eagain : RecvFrame Nat)).fifo = [7] ∧
      (read_decode_convert_and_store_env ([7] : List Nat) 0 0
          (RecvFrame.eagain : RecvFrame Nat)).ret = 0 ∧
      (∀ (rr sr : Int) (r : RecvFrame Nat), (decode_audio_frame rr sr r).ret ≠ 0 →
          (rr < 0 ∧ rr ≠ AVERROR_EOF) ∨ sr < 0 ∨ ∃ e : Int, r = RecvFrame.err e)) :=
  ⟨Or.inl le_rfl, le_rfl,
    decode_eos_not_error 0 0 [7] (Or.inl le_rfl) le_rfl⟩

/-- The FLUSHING do-while exits within the fuel bound once the encoder
consistently stops yielding packets. -/
theorem flushLoopCalls_exits (recv : Nat → Bool) (N : Nat)
    (h : ∀ i, N ≤ i → recv i = false) :
    ∀ (fuel i : Nat), i + fuel = N + 1 → i ≤ N →
      ∃ j, flushLoopCalls recv i fuel = some j ∧ j ≤ N + 1 := by
  intro fuel
  induction fuel with
  | zero => intro i h1 h2; omega
  | succ fuel ih =>
    intro i h1 h2
    by_cases hi : recv i = true
    · have hiN : i < N := by
        by_contra hc
        have hNi : N ≤ i := by omega
        rw [h i hNi] at hi
        exact Bool.false_ne_true hi
      obtain ⟨j, hj1, hj2⟩ := ih (i + 1) (by omega) (by omega)
      refine ⟨j, ?_, hj2⟩
      simp only [flushLoopCalls, hi, if_pos]
      exact hj1
    · refine ⟨i + 1, ?_, by omega⟩
      simp [flushLoopCalls, hi]

/-- Claim C7: for every encoder model in which repeated null-frame pushes
after the buffered output is exhausted consistently yield no packet, the
FLUSHING loop (push null frame, drain a packet, repeat while a packet was
produced) terminates after a bounded number of calls, and the container
trailer is then written. -/
theorem flushing_terminates (recv : Nat → Bool) (N : Nat)
    (h : ∀ i, N ≤ i → recv i = false) :
    ∃ j, flushLoopCalls recv 0 (N + 1) = some j ∧ j ≤ N + 1 ∧
      trailer_written_after_flush recv (N + 1) = true := by
  obtain ⟨j, h1, h2⟩ := flushLoopCalls_exits recv N h (N + 1) 0 (by omega) (by omega)
  refine ⟨j, h1, h2, ?_⟩
  simp [trailer_written_after_flush, h1]

/-- Witness for C7 with the delay-free encoder model. -/
theorem flushing_terminates_witness :
    (∀ i : Nat, 0 ≤ i → (fun _ : Nat => false) i = false) ∧
    (∃ j, flushLoopCalls (fun _ : Nat => false) 0 (0 + 1) = some j ∧ j ≤ 0 + 1 ∧
      trailer_written_after_flush (fun _ : Nat => false) (0 + 1) = true) :=
  ⟨fun _ _ => rfl, flushing_terminates (fun _ : Nat => false) 0 (fun _ _ => rfl)⟩

/-- Claim C8 counterexample: an input exposing a single *video* stream has
zero audio streams (not exactly one), yet `open_input_file` checks only the
total stream count (`nb_streams != 1`, line 87), so when the remaining
library calls succeed open-input returns 0 and the pipeline starts. -/
theorem open_input_audio_check_counterexample :
    audioStreamCount [MediaKind.video] ≠ 1 ∧
    open_input_file ⟨0, 0, [MediaKind.video], true, true, 0, 0⟩ = 0 ∧
    main_startup ⟨0, 0, [MediaKind.video], true, true, 0, 0⟩ =
      StartupResult.pipelineStarted := by
  refine ⟨by decide, by decide, by decide⟩

/-- Claim C8 (amended): for every input whose *total* stream count is not
exactly one, opening the input fails with `AVERROR_EXIT` before the
pipeline starts, and the process terminates with a nonzero status. -/
theorem open_input_stream_count_guard (env : InOpenEnv)
    (h1 : 0 ≤ env.openRes) (h2 : 0 ≤ env.findRes) (h3 : env.streams.length ≠ 1) :
    open_input_file env = AVERROR_EXIT ∧
    main_startup env = StartupResult.failedBeforePipeline AVERROR_EXIT ∧
    AVERROR_EXIT ≠ 0 ∧ Int.emod AVERROR_EXIT 256 ≠ 0 := by
  have ho : open_input_file env = AVERROR_EXIT := by
    unfold open_input_file
    rw [if_neg (by omega), if_neg (by omega), if_pos h3]
  refine ⟨ho, ?_, by decide, by decide⟩
  unfold main_startup
  rw [ho]
  simp [AVERROR_EXIT]

/-- Witness for the amended C8 at a two-audio-stream input. -/
theorem open_input_stream_count_guard_witness :
    (0 : Int) ≤ 0 ∧ (0 : Int) ≤ 0 ∧
    ([MediaKind.audio, MediaKind.audio] : List MediaKind).length ≠ 1 ∧
    (open_input_file ⟨0, 0, [MediaKind.audio, MediaKind.audio], true, true, 0, 0⟩ =
        AVERROR_EXIT ∧
      main_startup ⟨0, 0, [MediaKind.audio, MediaKind.audio], true, true, 0, 0⟩ =
        StartupResult.failedBeforePipeline AVERROR_EXIT ∧
      AVERROR_EXIT ≠ 0 ∧ Int.emod AVERROR_EXIT 256 ≠ 0) :=
  ⟨le_rfl, le_rfl, by decide,
    open_input_stream_count_guard ⟨0, 0, [MediaKind.audio, MediaKind.audio], true, true, 0, 0⟩
      le_rfl le_rfl (by decide)⟩

/-- Claim C9: the equal-sample-rate assertion in `init_resampler` can never
fire, because any successfully opened output endpoint carries the input's
sample rate (line 205); the assertion's abort branch is unreachable. -/
theorem resampler_assert_unreachable (inp : CodecPar) (env : OutOpenEnv) (outp : CodecPar)
    (h : open_output_file inp env = some outp) :
    init_resampler_assertOk inp outp = true := by
  unfold open_output_file at h
  split_ifs at h with hc
  · simp only [Option.some.injEq] at h
    rw [← h]
    simp [init_resampler_assertOk]

/-- Witness for C9 at a concrete successful output open. -/
theorem resampler_assert_unreachable_witness :
    open_output_file ⟨44100⟩ ⟨true, true, true, true, true, true, true, true, true⟩ =
      some ⟨44100⟩ ∧
    init_resampler_assertOk ⟨44100⟩ ⟨44100⟩ = true :=
  ⟨by decide,
    resampler_assert_unreachable ⟨44100⟩ ⟨true, true, true, true, true, true, true, true, true⟩
      ⟨44100⟩ (by decide)⟩

/-! ### Pipeline driver lemmas -/

/-- `encTotal` over appending one frame. -/
theorem encTotal_append_one {α : Type} (l : List (List α)) (f : List α) :
    encTotal (l ++ [f]) = encTotal l + f.length := by
  induction l with
  | nil => simp [encTotal]
  | cons g rest ih =>
    rw [List.cons_append]
    simp only [encTotal]
    rw [ih]
    omega

theorem step_fill_low_nil {α : Type} {E : Nat} {fifo : List α} {fin : Bool}
    {enc : List (List α)} {p dec pend : Nat} (hlt : fifo.length < E) :
    driverStep E ⟨Phase.filling, fifo, [], fin, enc, p, dec, pend⟩ =
      ⟨Phase.draining, fifo, [], true, enc, p, dec, pend⟩ := by
  simp [driverStep, av_audio_fifo_size, read_decode_convert_and_store, hlt]

theorem step_fill_low_frame {α : Type} {E : Nat} {fifo dd : List α} {rest : List (PumpEvent α)}
    {fin : Bool} {enc : List (List α)} {p dec pend : Nat} (hlt : fifo.length < E) :
    driverStep E ⟨Phase.filling, fifo, PumpEvent.frame dd :: rest, fin, enc, p, dec, pend⟩ =
      ⟨Phase.filling, fifo ++ dd, rest, false, enc, p, dec + dd.length, pend⟩ := by
  simp [driverStep, av_audio_fifo_size, read_decode_convert_and_store, add_samples_to_fifo, hlt]

theorem step_fill_low_needMore {α : Type} {E : Nat} {fifo : List α} {rest : List (PumpEvent α)}
    {fin : Bool} {enc : List (List α)} {p dec pend : Nat} (hlt : fifo.length < E) :
    driverStep E ⟨Phase.filling, fifo, PumpEvent.needMore :: rest, fin, enc, p, dec, pend⟩ =
      ⟨Phase.filling, fifo, rest, false, enc, p, dec, pend⟩ := by
  simp [driverStep, av_audio_fifo_size, read_decode_convert_and_store, hlt]

theorem step_fill_low_late {α : Type} {E : Nat} {fifo dd : List α} {rest : List (PumpEvent α)}
    {fin : Bool} {enc : List (List α)} {p dec pend : Nat} (hlt : fifo.length < E) :
    driverStep E ⟨Phase.filling, fifo, PumpEvent.lateFrame dd :: rest, fin, enc, p, dec, pend⟩ =
      ⟨Phase.draining, fifo, rest, true, enc, p, dec + dd.length, pend⟩ := by
  simp [driverStep, av_audio_fifo_size, read_decode_convert_and_store, hlt]

theorem step_fill_high {α : Type} {E : Nat} {fifo : List α} {script : List (PumpEvent α)}
    {fin : Bool} {enc : List (List α)} {p dec pend : Nat} (hge : ¬ fifo.length < E) :
    driverStep E ⟨Phase.filling, fifo, script, fin, enc, p, dec, pend⟩ =
      ⟨Phase.draining, fifo, script, fin, enc, p, dec, pend⟩ := by
  simp [driverStep, av_audio_fifo_size, hge]

theorem step_drain_go {α : Type} {E : Nat} {fifo : List α} {script : List (PumpEvent α)}
    {fin : Bool} {enc : List (List α)} {p dec pend : Nat}
    (hc : E ≤ fifo.length ∨ (fin = true ∧ 0 < fifo.length)) :
    driverStep E ⟨Phase.draining, fifo, script, fin, enc, p, dec, pend⟩ =
      ⟨Phase.draining, fifo.drop (min fifo.length E), script, fin,
        enc ++ [fifo.take (min fifo.length E)], p + min fifo.length E, dec, pend⟩ := by
  simp only [driverStep, av_audio_fifo_size, load_encode_and_write_eq]
  rw [if_pos hc]

theorem step_drain_to_flush {α : Type} {E : Nat} {script : List (PumpEvent α)}
    {enc : List (List α)} {p dec pend : Nat} (hE : 0 < E) :
    driverStep E ⟨Phase.draining, ([] : List α), script, true, enc, p, dec, pend⟩ =
      ⟨Phase.flushing, [], script, true, enc, p, dec, pend⟩ := by
  have h2 : E ≠ 0 := by omega
  simp [driverStep, av_audio_fifo_size, h2]

theorem step_drain_to_fill {α : Type} {E : Nat} {fifo : List α} {script : List (PumpEvent α)}
    {enc : List (List α)} {p dec pend : Nat} (hlt : fifo.length < E) :
    driverStep E ⟨Phase.draining, fifo, script, false, enc, p, dec, pend⟩ =
      ⟨Phase.filling, fifo, script, false, enc, p, dec, pend⟩ := by
  have h1 : ¬ E ≤ fifo.length := by omega
  simp [driverStep, av_audio_fifo_size, h1]

theorem step_flush_go {α : Type} {E : Nat} {fifo : List α} {script : List (PumpEvent α)}
    {fin : Bool} {enc : List (List α)} {p dec pend : Nat} (hp : 0 < pend) :
    driverStep E ⟨Phase.flushing, fifo, script, fin, enc, p, dec, pend⟩ =
      ⟨Phase.flushing, fifo, script, fin, enc, p, dec, pend - 1⟩ := by
  simp [driverStep, hp]

theorem step_flush_done {α : Type} {E : Nat} {fifo : List α} {script : List (PumpEvent α)}
    {fin : Bool} {enc : List (List α)} {p dec pend : Nat} (hp : ¬ 0 < pend) :
    driverStep E ⟨Phase.flushing, fifo, script, fin, enc, p, dec, pend⟩ =
      ⟨Phase.done, fifo, script, fin, enc, p, dec, pend⟩ := by
  simp [driverStep, hp]

theorem step_done {α : Type} {E : Nat} {fifo : List α} {script : List (PumpEvent α)}
    {fin : Bool} {enc : List (List α)} {p dec pend : Nat} :
    driverStep E ⟨Phase.done, fifo, script, fin, enc, p, dec, pend⟩ =
      ⟨Phase.done, fifo, script, fin, enc, p, dec, pend⟩ := rfl

theorem step_failed {α : Type} {E : Nat} {fifo : List α} {script : List (PumpEvent α)}
    {fin : Bool} {enc : List (List α)} {p dec pend : Nat} :
    driverStep E ⟨Phase.failed, fifo, script, fin, enc, p, dec, pend⟩ =
      ⟨Phase.failed, fifo, script, fin, enc, p, dec, pend⟩ := rfl

theorem driverStep_not_failed {α : Type} (E : Nat) (hE : 0 < E) (d : Driver α)
    (h : d.phase ≠ Phase.failed) : (driverStep E d).phase ≠ Phase.failed := by
  obtain ⟨ph, fifo, script, fin, enc, p, dec, pend⟩ := d
  dsimp only at h
  cases ph
  case failed => exact absurd rfl h
  case done => rw [step_done]; exact h
  case filling =>
    by_cases hlt : fifo.length < E
    · cases script with
      | nil => rw [step_fill_low_nil hlt]; exact fun hcon => Phase.noConfusion hcon
      | cons e rest =>
        cases e with
        | frame dd => rw [step_fill_low_frame hlt]; exact fun hcon => Phase.noConfusion hcon
        | needMore => rw [step_fill_low_needMore hlt]; exact fun hcon => Phase.noConfusion hcon
        | lateFrame dd => rw [step_fill_low_late hlt]; exact fun hcon => Phase.noConfusion hcon
    · rw [step_fill_high hlt]; exact fun hcon => Phase.noConfusion hcon
  case draining =>
    by_cases hcnd : E ≤ fifo.length ∨ (fin = true ∧ 0 < fifo.length)
    · rw [step_drain_go hcnd]; exact fun hcon => Phase.noConfusion hcon
    · cases fin with
      | true =>
        have hlen : fifo.length = 0 := by
          rcases not_or.mp hcnd with ⟨ha, hb⟩
          by_contra hne
          exact hb ⟨rfl, by omega⟩
        have hfifo : fifo = [] := List.length_eq_zero.mp hlen
        subst hfifo
        rw [step_drain_to_flush hE]
        exact fun hcon => Phase.noConfusion hcon
      | false =>
        have hlt2 : fifo.length < E := by
          rcases not_or.mp hcnd with ⟨ha, _⟩
          omega
        rw [step_drain_to_fill hlt2]
        exact fun hcon => Phase.noConfusion hcon
  case flushing =>
    by_cases hp : 0 < pend
    · rw [step_flush_go hp]; exact fun hcon => Phase.noConfusion hcon
    · rw [step_flush_done hp]; exact fun hcon => Phase.noConfusion hcon

theorem phi_step_lt {α : Type} (E : Nat) (hE : 0 < E) (d : Driver α)
    (h1 : d.phase ≠ Phase.done) (h2 : d.phase ≠ Phase.failed) :
    phi E (driverStep E d) < phi E d := by
  obtain ⟨ph, fifo, script, fin, enc, p, dec, pend⟩ := d
  dsimp only at h1 h2
  cases ph
  case done => exact absurd rfl h1
  case failed => exact absurd rfl h2
  case filling =>
    by_cases hlt : fifo.length < E
    · cases script with
      | nil =>
        rw [step_fill_low_nil hlt]
        simp [phi, phaseConst, scriptWeight, hlt]
      | cons e rest =>
        cases e with
        | frame dd =>
          rw [step_fill_low_frame hlt]
          simp only [phi, phaseConst, scriptWeight, eventWeight, List.length_append]
          rw [if_pos hlt]
          split_ifs <;> omega
        | needMore =>
          rw [step_fill_low_needMore hlt]
          simp [phi, phaseConst, scriptWeight, eventWeight, hlt]
        | lateFrame dd =>
          rw [step_fill_low_late hlt]
          simp only [phi, phaseConst, scriptWeight, eventWeight]
          rw [if_pos hlt]
          split_ifs <;> omega
    · rw [step_fill_high hlt]
      simp only [phi, phaseConst]
      rw [if_neg hlt]
      split_ifs <;> omega
  case draining =>
    by_cases hcnd : E ≤ fifo.length ∨ (fin = true ∧ 0 < fifo.length)
    · rw [step_drain_go hcnd]
      simp only [phi, phaseConst, List.length_drop]
      split_ifs <;> omega
    · cases fin with
      | true =>
        have hlen : fifo.length = 0 := by
          rcases not_or.mp hcnd with ⟨ha, hb⟩
          by_contra hne
          exact hb ⟨rfl, by omega⟩
        have hfifo : fifo = [] := List.length_eq_zero.mp hlen
        subst hfifo
        rw [step_drain_to_flush hE]
        simp [phi, phaseConst]
      | false =>
        have hlt2 : fifo.length < E := by
          rcases not_or.mp hcnd with ⟨ha, _⟩
          omega
        rw [step_drain_to_fill hlt2]
        simp [phi, phaseConst, hlt2]
  case flushing =>
    by_cases hp : 0 < pend
    · rw [step_flush_go hp]
      simp only [phi, phaseConst]
      omega
    · rw [step_flush_done hp]
      simp only [phi, phaseConst]
      omega

theorem reaches_done {α : Type} (E : Nat) (hE : 0 < E) :
    ∀ (N : Nat) (d : Driver α), phi E d ≤ N → d.phase ≠ Phase.failed →
      ∃ n, ((driverStep E)^[n] d).phase = Phase.done := by
  intro N
  induction N with
  | zero =>
    intro d hphi hnf
    by_cases hdone : d.phase = Phase.done
    · exact ⟨0, hdone⟩
    · have := phi_step_lt E hE d hdone hnf
      omega
  | succ N ih =>
    intro d hphi hnf
    by_cases hdone : d.phase = Phase.done
    · exact ⟨0, hdone⟩
    · have hlt := phi_step_lt E hE d hdone hnf
      obtain ⟨n, hn⟩ := ih (driverStep E d) (by omega) (driverStep_not_failed E hE d hnf)
      exact ⟨n + 1, by rw [Function.iterate_succ_apply]; exact hn⟩

theorem consInv_step {α : Type} (E : Nat) (hE : 0 < E) (d : Driver α) (h : ConsInv d) :
    ConsInv (driverStep E d) ∧
    (driverStep E d).decoded + frameTotal (driverStep E d).script =
      d.decoded + frameTotal d.script := by
  obtain ⟨ph, fifo, script, fin, enc, p, dec, pend⟩ := d
  unfold ConsInv at h ⊢
  dsimp only at h ⊢
  obtain ⟨hc, hl, hfin, hph, hnf⟩ := h
  cases ph
  case failed => exact absurd rfl hnf
  case done =>
    rw [step_done]
    exact ⟨⟨hc, hl, hfin, hph, hnf⟩, rfl⟩
  case flushing =>
    by_cases hp : 0 < pend
    · rw [step_flush_go hp]
      refine ⟨⟨hc, hl, hfin, ?_, ?_⟩, rfl⟩
      · intro _; exact hph (Or.inl rfl)
      · exact fun hcon => Phase.noConfusion hcon
    · rw [step_flush_done hp]
      refine ⟨⟨hc, hl, hfin, ?_, ?_⟩, rfl⟩
      · intro _; exact hph (Or.inl rfl)
      · exact fun hcon => Phase.noConfusion hcon
  case filling =>
    by_cases hlt : fifo.length < E
    · cases script with
      | nil =>
        rw [step_fill_low_nil hlt]
        refine ⟨⟨hc, hl, fun _ => rfl, ?_, ?_⟩, rfl⟩
        · intro hor; rcases hor with hcon | hcon <;> exact Phase.noConfusion hcon
        · exact fun hcon => Phase.noConfusion hcon
      | cons e rest =>
        cases e with
        | frame dd =>
          rw [step_fill_low_frame hlt]
          refine ⟨⟨?_, ?_, ?_, ?_, ?_⟩, ?_⟩
          · simp only [List.length_append]
            omega
          · simpa [hasLate] using hl
          · intro hcon; exact Bool.noConfusion hcon
          · intro hor; rcases hor with hcon | hcon <;> exact Phase.noConfusion hcon
          · exact fun hcon => Phase.noConfusion hcon
          · simp only [frameTotal]
            omega
        | needMore =>
          rw [step_fill_low_needMore hlt]
          refine ⟨⟨hc, ?_, ?_, ?_, ?_⟩, ?_⟩
          · simpa [hasLate] using hl
          · intro hcon; exact Bool.noConfusion hcon
          · intro hor; rcases hor with hcon | hcon <;> exact Phase.noConfusion hcon
          · exact fun hcon => Phase.noConfusion hcon
          · simp only [frameTotal]
        | lateFrame dd =>
          simp [hasLate] at hl
    · rw [step_fill_high hlt]
      refine ⟨⟨hc, hl, hfin, ?_, ?_⟩, rfl⟩
      · intro hor; rcases hor with hcon | hcon <;> exact Phase.noConfusion hcon
      · exact fun hcon => Phase.noConfusion hcon
  case draining =>
    by_cases hcnd : E ≤ fifo.length ∨ (fin = true ∧ 0 < fifo.length)
    · rw [step_drain_go hcnd]
      refine ⟨⟨?_, hl, hfin, ?_, ?_⟩, rfl⟩
      · dsimp only
        rw [encTotal_append_one, List.length_take, List.length_drop]
        omega
      · intro hor; rcases hor with hcon | hcon <;> exact Phase.noConfusion hcon
      · exact fun hcon => Phase.noConfusion hcon
    · cases fin with
      | true =>
        have hlen : fifo.length = 0 := by
          rcases not_or.mp hcnd with ⟨ha, hb⟩
          by_contra hne
          exact hb ⟨rfl, by omega⟩
        have hfifo : fifo = [] := List.length_eq_zero.mp hlen
        subst hfifo
        rw [step_drain_to_flush hE]
        refine ⟨⟨hc, hl, hfin, ?_, ?_⟩, rfl⟩
        · intro _; exact ⟨rfl, rfl⟩
        · exact fun hcon => Phase.noConfusion hcon
      | false =>
        have hlt2 : fifo.length < E := by
          rcases not_or.mp hcnd with ⟨ha, _⟩
          omega
        rw [step_drain_to_fill hlt2]
        refine ⟨⟨hc, hl, ?_, ?_, ?_⟩, rfl⟩
        · intro hcon; exact Bool.noConfusion hcon
        · intro hor; rcases hor with hcon | hcon <;> exact Phase.noConfusion hcon
        · exact fun hcon => Phase.noConfusion hcon

theorem consInv_iterate {α : Type} (E : Nat) (hE : 0 < E) (d : Driver α) (h : ConsInv d)
    (n : Nat) :
    ConsInv ((driverStep E)^[n] d) ∧
    ((driverStep E)^[n] d).decoded + frameTotal ((driverStep E)^[n] d).script =
      d.decoded + frameTotal d.script := by
  induction n with
  | zero => exact ⟨h, rfl⟩
  | succ n ih =>
    rw [Function.iterate_succ_apply']
    obtain ⟨h1, h2⟩ := ih
    obtain ⟨h3, h4⟩ := consInv_step E hE _ h1
    exact ⟨h3, by omega⟩

theorem flushing_reaches_done {α : Type} (E : Nat) :
    ∀ (n : Nat) (d : Driver α), d.phase = Phase.flushing → d.pending = n →
      ((driverStep E)^[n + 1] d).phase = Phase.done := by
  intro n
  induction n with
  | zero =>
    intro d hph hp
    obtain ⟨ph, fifo, script, fin, enc, p, dec, pend⟩ := d
    dsimp only at hph hp
    subst hph
    subst hp
    rw [Function.iterate_one, step_flush_done (by omega)]
  | succ n ih =>
    intro d hph hp
    obtain ⟨ph, fifo, script, fin, enc, p, dec, pend⟩ := d
    dsimp only at hph hp
    subst hph
    subst hp
    rw [Function.iterate_succ_apply, step_flush_go (by omega)]
    exact ih _ rfl rfl

theorem no_refill_step {α : Type} (E : Nat) (hE : 0 < E) (d : Driver α)
    (h1 : d.finished = true) (h2 : d.phase ≠ Phase.filling) :
    (driverStep E d).finished = true ∧ (driverStep E d).phase ≠ Phase.filling := by
  obtain ⟨ph, fifo, script, fin, enc, p, dec, pend⟩ := d
  dsimp only at h1 h2
  subst h1
  cases ph
  case filling => exact absurd rfl h2
  case draining =>
    by_cases hcnd : E ≤ fifo.length ∨ (true = true ∧ 0 < fifo.length)
    · rw [step_drain_go hcnd]
      exact ⟨rfl, fun hcon => Phase.noConfusion hcon⟩
    · have hlen : fifo.length = 0 := by
        rcases not_or.mp hcnd with ⟨ha, hb⟩
        by_contra hne
        exact hb ⟨rfl, by omega⟩
      have hfifo : fifo = [] := List.length_eq_zero.mp hlen
      subst hfifo
      rw [step_drain_to_flush hE]
      exact ⟨rfl, fun hcon => Phase.noConfusion hcon⟩
  case flushing =>
    by_cases hp : 0 < pend
    · rw [step_flush_go hp]
      exact ⟨rfl, fun hcon => Phase.noConfusion hcon⟩
    · rw [step_flush_done hp]
      exact ⟨rfl, fun hcon => Phase.noConfusion hcon⟩
  case done =>
    rw [step_done]
    exact ⟨rfl, fun hcon => Phase.noConfusion hcon⟩
  case failed =>
    rw [step_failed]
    exact ⟨rfl, fun hcon => Phase.noConfusion hcon⟩

theorem no_refill_iterate {α : Type} (E : Nat) (hE : 0 < E) (d : Driver α)
    (h1 : d.finished = true) (h2 : d.phase ≠ Phase.filling) (j : Nat) :
    ((driverStep E)^[j] d).phase ≠ Phase.filling := by
  induction j generalizing d with
  | zero => simpa using h2
  | succ j ih =>
    rw [Function.iterate_succ_apply]
    obtain ⟨g1, g2⟩ := no_refill_step E hE d h1 h2
    exact ih _ g1 g2

/-- Claim C1 (amended): for every decoder script with frame sizes
`d_1..d_n` and positive encoder frame size `E`, provided the decoder
delivers no frame in the same decode call that first signals end-of-stream
(no late frame), the pipeline run completes and the total number of samples
handed to the encoder equals the total number of samples produced by the
decoder, namely `d_1 + ... + d_n`.  (The unamended claim also counts frames
the decoder yields only after end-of-stream is signalled; those are dropped
by lines 521-527 — see `sample_conservation_counterexample`.) -/
theorem sample_conservation_no_late {α : Type} (E : Nat) (hE : 0 < E)
    (script : List (PumpEvent α)) (hL : hasLate script = false) (pend : Nat) :
    ∃ n, ((driverStep E)^[n] (initDriver script pend)).phase = Phase.done ∧
      encTotal ((driverStep E)^[n] (initDriver script pend)).encoded = frameTotal script ∧
      ((driverStep E)^[n] (initDriver script pend)).decoded = frameTotal script := by
  have hinv : ConsInv (initDriver script pend) := by
    unfold ConsInv initDriver
    refine ⟨by simp [encTotal], hL, ?_, ?_, ?_⟩
    · intro hcon; exact Bool.noConfusion hcon
    · intro hor; rcases hor with hcon | hcon <;> exact Phase.noConfusion hcon
    · exact fun hcon => Phase.noConfusion hcon
  obtain ⟨n, hn⟩ := reaches_done E hE (phi E (initDriver script pend)) (initDriver script pend)
    le_rfl (by unfold initDriver; exact fun hcon => Phase.noConfusion hcon)
  have hall := consInv_iterate E hE (initDriver script pend) hinv n
  have hcons := hall.2
  have hinv2 := hall.1
  unfold ConsInv at hinv2
  obtain ⟨hc, hl2, hfin, hph, hnf⟩ := hinv2
  have hfd := hph (Or.inr hn)
  have hs : ((driverStep E)^[n] (initDriver script pend)).script = [] := hfin hfd.2
  rw [hs] at hcons
  rw [hfd.1] at hc
  simp only [frameTotal, List.length_nil] at hcons hc
  have hd0 : (initDriver script pend : Driver α).decoded = 0 := rfl
  have hs0 : (initDriver script pend : Driver α).script = script := rfl
  rw [hd0, hs0] at hcons
  refine ⟨n, hn, by omega, by omega⟩

/-- Claim C4: once the decoder has signalled end-of-stream, the driver
performs exactly one more DRAINING pass: a remaining partial buffer
(`0 < level < E`) is emitted as one final shorter frame, leaving level 0;
the driver then enters FLUSHING and then DONE, and it never returns to
FILLING after `finished` is set. -/
theorem eos_single_drain_pass {α : Type} (E : Nat) (hE : 0 < E) (d : Driver α)
    (hp : d.phase = Phase.draining) (hf : d.finished = true) (hlt : d.fifo.length < E) :
    (0 < d.fifo.length →
        (driverStep E d).fifo = [] ∧
        (driverStep E d).encoded = d.encoded ++ [d.fifo] ∧
        (driverStep E d).phase = Phase.draining) ∧
    ((driverStep E)^[if 0 < d.fifo.length then 2 else 1] d).phase = Phase.flushing ∧
    ((driverStep E)^[(if 0 < d.fifo.length then 2 else 1) + d.pending + 1] d).phase
        = Phase.done ∧
    (∀ j : Nat, ((driverStep E)^[j] d).phase ≠ Phase.filling) := by
  obtain ⟨ph, fifo, script, fin, enc, p, dec, pend⟩ := d
  dsimp only at hp hf hlt ⊢
  subst hp
  subst hf
  by_cases h0 : 0 < fifo.length
  · have hmin : min fifo.length E = fifo.length := by omega
    have e1 : driverStep E ⟨Phase.draining, fifo, script, true, enc, p, dec, pend⟩ =
        ⟨Phase.draining, [], script, true, enc ++ [fifo], p + fifo.length, dec, pend⟩ := by
      rw [step_drain_go (Or.inr ⟨rfl, h0⟩), hmin, List.drop_length, List.take_length]
    have e2 : driverStep E ⟨Phase.draining, ([] : List α), script, true, enc ++ [fifo],
        p + fifo.length, dec, pend⟩ =
        ⟨Phase.flushing, [], script, true, enc ++ [fifo], p + fifo.length, dec, pend⟩ :=
      step_drain_to_flush hE
    have h2it : ((driverStep E)^[2] ⟨Phase.draining, fifo, script, true, enc, p, dec, pend⟩)
        = ⟨Phase.flushing, [], script, true, enc ++ [fifo], p + fifo.length, dec, pend⟩ := by
      rw [show (2 : Nat) = 1 + 1 from rfl, Function.iterate_add_apply,
        Function.iterate_one, e1, e2]
    rw [if_pos h0]
    refine ⟨fun _ => ?_, ?_, ?_, ?_⟩
    · rw [e1]
      exact ⟨rfl, rfl, rfl⟩
    · rw [h2it]
    · have hexp : 2 + pend + 1 = (pend + 1) + 2 := by omega
      rw [hexp, Function.iterate_add_apply, h2it]
      exact flushing_reaches_done E pend _ rfl rfl
    · intro j
      exact no_refill_iterate E hE _ rfl (fun hcon => Phase.noConfusion hcon) j
  · have hfifo : fifo = [] := List.length_eq_zero.mp (by omega)
    subst hfifo
    rw [if_neg h0]
    refine ⟨fun hcon => absurd hcon h0, ?_, ?_, ?_⟩
    · rw [Function.iterate_one, step_drain_to_flush hE]
    · have hexp : 1 + pend + 1 = (pend + 1) + 1 := by omega
      rw [hexp, Function.iterate_add_apply, Function.iterate_one, step_drain_to_flush hE]
      exact flushing_reaches_done E pend _ rfl rfl
    · intro j
      exact no_refill_iterate E hE _ rfl (fun hcon => Phase.noConfusion hcon) j

/-- Claim C1 counterexample: a decoder that yields one delayed frame of one
sample in the same decode call where `av_read_frame` reports end-of-stream.
The run completes, the decoder produced 1 sample, but 0 samples reach the
encoder: `read_decode_convert_and_store` checks `finished` (line 524)
before `data_present`, dropping the late frame, so the totals differ. -/
theorem sample_conservation_counterexample :
    (((driverStep 1)^[3] (initDriver ([PumpEvent.lateFrame [5]] : List (PumpEvent Nat)) 0)).phase
        = Phase.done) ∧
    ((driverStep 1)^[3] (initDriver ([PumpEvent.lateFrame [5]] : List (PumpEvent Nat)) 0)).decoded
        = 1 ∧
    encTotal (((driverStep 1)^[3]
        (initDriver ([PumpEvent.lateFrame [5]] : List (PumpEvent Nat)) 0)).encoded) = 0 ∧
    ¬ (encTotal (((driverStep 1)^[3]
        (initDriver ([PumpEvent.lateFrame [5]] : List (PumpEvent Nat)) 0)).encoded) =
       ((driverStep 1)^[3]
        (initDriver ([PumpEvent.lateFrame [5]] : List (PumpEvent Nat)) 0)).decoded) := by
  decide

/-- Witness for the amended C1 at a concrete script and frame size. -/
theorem sample_conservation_no_late_witness :
    0 < 2 ∧
    hasLate ([PumpEvent.frame [10, 20, 30]] : List (PumpEvent Nat)) = false ∧
    (∃ n, ((driverStep 2)^[n]
          (initDriver ([PumpEvent.frame [10, 20, 30]] : List (PumpEvent Nat)) 1)).phase =
        Phase.done ∧
      encTotal ((driverStep 2)^[n]
          (initDriver ([PumpEvent.frame [10, 20, 30]] : List (PumpEvent Nat)) 1)).encoded =
        frameTotal ([PumpEvent.frame [10, 20, 30]] : List (PumpEvent Nat)) ∧
      ((driverStep 2)^[n]
          (initDriver ([PumpEvent.frame [10, 20, 30]] : List (PumpEvent Nat)) 1)).decoded =
        frameTotal ([PumpEvent.frame [10, 20, 30]] : List (PumpEvent Nat))) :=
  ⟨by decide, by decide,
    sample_conservation_no_late 2 (by decide) [PumpEvent.frame [10, 20, 30]] (by decide) 1⟩

/-- Witness for C4 at a concrete post-end-of-stream draining state. -/
theorem eos_single_drain_pass_witness :
    0 < 2 ∧
    (⟨Phase.draining, [7], [], true, [], 0, 1, 0⟩ : Driver Nat).phase = Phase.draining ∧
    (⟨Phase.draining, [7], [], true, [], 0, 1, 0⟩ : Driver Nat).finished = true ∧
    (⟨Phase.draining, [7], [], true, [], 0, 1, 0⟩ : Driver Nat).fifo.length < 2 ∧
    ((0 < (⟨Phase.draining, [7], [], true, [], 0, 1, 0⟩ : Driver Nat).fifo.length →
        (driverStep 2 (⟨Phase.draining, [7], [], true, [], 0, 1, 0⟩ : Driver Nat)).fifo = [] ∧
        (driverStep 2 (⟨Phase.draining, [7], [], true, [], 0, 1, 0⟩ : Driver Nat)).encoded =
          (⟨Phase.draining, [7], [], true, [], 0, 1, 0⟩ : Driver Nat).encoded ++
            [(⟨Phase.draining, [7], [], true, [], 0, 1, 0⟩ : Driver Nat).fifo] ∧
        (driverStep 2 (⟨Phase.draining, [7], [], true, [], 0, 1, 0⟩ : Driver Nat)).phase =
          Phase.draining) ∧
      ((driverStep 2)^[if 0 < (⟨Phase.draining, [7], [], true, [], 0, 1, 0⟩ :
            Driver Nat).fifo.length then 2 else 1]
          (⟨Phase.draining, [7], [], true, [], 0, 1, 0⟩ : Driver Nat)).phase = Phase.flushing ∧
      ((driverStep 2)^[(if 0 < (⟨Phase.draining, [7], [], true, [], 0, 1, 0⟩ :
            Driver Nat).fifo.length then 2 else 1) +
          (⟨Phase.draining, [7], [], true, [], 0, 1, 0⟩ : Driver Nat).pending + 1]
          (⟨Phase.draining, [7], [], true, [], 0, 1, 0⟩ : Driver Nat)).phase = Phase.done ∧
      (∀ j : Nat, ((driverStep 2)^[j]
          (⟨Phase.draining, [7], [], true, [], 0, 1, 0⟩ : Driver Nat)).phase ≠
        Phase.filling)) :=
  ⟨by decide, rfl, rfl, by decide,
    eos_single_drain_pass 2 (by decide) ⟨Phase.draining, [7], [], true, [], 0, 1, 0⟩
      rfl rfl (by decide)⟩
